import Mathlib

/-!
Event ingestion pipeline — verification development

A shallow embedding of the normalization + idempotent-ingestion pipeline:

* `src/services/normalizationService.js` — field extraction heuristics,
  date and number coercion, and the content hash defining event identity;
* `src/services/deduplicationService.js` — the identity (dedup) store gate;
* `src/services/eventProcessingService.js` — the ingestion state machine
  (processed / rejected / failed, duplicate suppression, race repair);
* `src/storage/fileStorage.js` — the record store and its aggregation
  primitive, together with the aggregation route's match criteria.

JSON values are modelled by `JVal`; machine numbers by `ℚ`; instants by
`ℤ` milliseconds since the Unix epoch.  JavaScript built-ins the code
calls (`parseFloat`, `new Date`, `crypto.createHash('sha256')`, UTF-8
encoding) are implemented below, bit-for-bit where the claims depend on
them.  Nondeterministic inputs (`Date.now()`, `Math.random()`,
`crypto.randomUUID()`) are supplied by explicit streams in the system
state, one draw per pipeline call.
-/

namespace EventIngestion

/-! A JSON value as delivered to the pipeline by `express.json()`.
`undefined` is represented by the absence of a key; `null` by `vnull`.
(Arrays do not occur in any behaviour the claims mention and are omitted.)
The field list of an object is its own inductive `JFields`, mutually with
`JVal`, so that sizes and lookups are plain structural recursions. -/

mutual

/-- A JSON value. -/
inductive JVal : Type where
  | vstr (s : String)
  | vnum (q : ℚ)
  | vbool (b : Bool)
  | vnull
  | vobj (fields : JFields)

/-- The field list of a JSON object. -/
inductive JFields : Type where
  | nil
  | cons (k : String) (v : JVal) (t : JFields)

end

/-- Build an object from a key/value list. -/
def JFields.ofList : List (String × JVal) → JFields
  | [] => .nil
  | (k, v) :: t => .cons k v (JFields.ofList t)

/-- Object literal notation for concrete payloads. -/
def jobj (l : List (String × JVal)) : JVal :=
  .vobj (JFields.ofList l)

/-- First binding of a key in a field list. -/
def jlookup : JFields → String → Option JVal
  | .nil, _ => none
  | .cons k v t, key => if key == k then some v else jlookup t key

/-- Property access `payload[field]`: the first binding of the key in an
object, `none` (JS `undefined`) otherwise. -/
def getField : JVal → String → Option JVal
  | .vobj fs, k => jlookup fs k
  | _, _ => none

mutual

/-- A structural size for JSON values, used as fuel for the payload
recursion of the extractors. -/
def jsize : JVal → Nat
  | .vstr _ => 1
  | .vnum _ => 1
  | .vbool _ => 1
  | .vnull => 1
  | .vobj fs => 1 + jsizeF fs

/-- A structural size for field lists. -/
def jsizeF : JFields → Nat
  | .nil => 1
  | .cons _ v t => 1 + jsize v + jsizeF t

end

/-- JS truthiness of a value. -/
def jsTruthy : JVal → Bool
  | .vstr s => s ≠ ""
  | .vnum q => q ≠ 0
  | .vbool b => b
  | .vnull => false
  | .vobj _ => true

/-- Whether `typeof v === 'object'` holds for a non-null value. -/
def isObjB : JVal → Bool
  | .vobj _ => true
  | _ => false

/-- Decimal rendering of a rational, standing in for JavaScript's
number-to-string coercion.  It is deterministic and injective, which is all
the hash-input construction relies on; the exact digit sequence JS would
print is irrelevant to every claim (equal numbers render equally). -/
def renderNum (q : ℚ) : String :=
  if q.den = 1 then q.num.repr else q.num.repr ++ "/" ++ Nat.repr q.den

/-- Rendering of a `Date` in a template literal (`Date.prototype.toString`),
which prints a calendar time at one-second precision.  Modelled as the
decimal seconds-since-epoch (floor), which is injective on second-precision
instants and constant within a second — exactly the two properties of the
real rendering that the identity hash depends on. -/
def renderDate (ms : Int) : String :=
  Int.repr (Int.fdiv ms 1000)

/-- `String.prototype.trim()`: leading and trailing whitespace removed
(written over the character list so that it reduces in the kernel). -/
def jsTrim (s : String) : String :=
  ⟨(((s.data.dropWhile Char.isWhitespace).reverse.dropWhile
      Char.isWhitespace).reverse)⟩

/-- `String(v)` coercion, as applied to extracted clientId / metric fields. -/
def jsToString : JVal → String
  | .vstr s => s
  | .vnum q => renderNum q
  | .vbool b => if b then "true" else "false"
  | .vnull => "null"
  | .vobj _ => "[object Object]"

/-! ## `parseFloat` on regexp-stripped strings

`extractAmount` strips a string of every character other than digits,
`'.'` and `'-'` (`value.replace(/[^\d.-]/g, '')`) and applies
`parseFloat`, which parses the longest valid decimal prefix and yields
`NaN` (here `none`) when no digit is consumed. -/

/-- The strip `value.replace(/[^\d.-]/g, '')`. -/
def stripAmount (s : String) : List Char :=
  s.data.filter (fun c => c.isDigit || c = '.' || c = '-')

/-- Numeric value of a digit character. -/
def digVal (c : Char) : Nat := c.toNat - '0'.toNat

/-- Natural number denoted by a digit list (most significant first). -/
def digitsVal (ds : List Char) : Nat :=
  ds.foldl (fun acc c => 10 * acc + digVal c) 0

/-- `parseFloat` on a character list: optional minus sign, then a decimal
significand `digits [. digits]` parsed as a prefix; at least one digit must
be consumed, else the result is `NaN` (`none`).  Exponents, `Infinity`,
whitespace and `'+'` cannot occur after the strip above. -/
def parseFloatChars (cs : List Char) : Option ℚ :=
  let (neg, rest) := match cs with
    | '-' :: t => (true, t)
    | t => (false, t)
  let intPart := rest.takeWhile Char.isDigit
  let afterInt := rest.dropWhile Char.isDigit
  let fracPart := match afterInt with
    | '.' :: t => t.takeWhile Char.isDigit
    | _ => []
  if intPart.isEmpty && fracPart.isEmpty then none
  else
    let scale : Nat := 10 ^ fracPart.length
    let mag : Int := digitsVal intPart * scale + digitsVal fracPart
    some (mkRat (if neg then -mag else mag) scale)

/-- `parseFloat(value.replace(/[^\d.-]/g, ''))` for a string field value. -/
def parseFloatStripped (s : String) : Option ℚ :=
  parseFloatChars (stripAmount s)

/-! ## Dates

Instants are `ℤ` milliseconds since the Unix epoch.  `new Date(x)` for a
number applies ECMAScript `TimeClip`: values beyond ±8.64·10¹⁵ ms give an
invalid date, others are truncated toward zero. -/

/-- Outcome of `parseDate`: JS `null`, an invalid `Date`, or a valid instant. -/
inductive DateOut : Type where
  | nullv
  | invalid
  | val (ms : Int)
deriving DecidableEq, Repr

/-- Truncation toward zero, as ECMAScript `ToIntegerOrInfinity`
(`Int.tdiv` is integer division rounding toward zero). -/
def truncQ (q : ℚ) : Int :=
  Int.tdiv q.num q.den

/-- ECMAScript `TimeClip`: time values of magnitude beyond 8.64·10¹⁵ ms
give an invalid date, others are truncated.  The magnitude test
`q.num.natAbs ≤ bound * q.den` is `|q| ≤ bound` written on the reduced
numerator and denominator. -/
def timeClip (q : ℚ) : DateOut :=
  if q.num.natAbs ≤ 8640000000000000 * q.den then .val (truncQ q) else .invalid

/-- Multiplication of a rational by a natural constant, written on the
numerator so that it reduces in the kernel; `qMulNat_eq` identifies it with
the ring multiplication. -/
def qMulNat (q : ℚ) (n : Nat) : ℚ :=
  mkRat (q.num * n) q.den

/- `qMulNat_eq` below identifies `qMulNat` with the ring multiplication. -/

/-- Whether a Gregorian year is a leap year. -/
def isLeap (y : Nat) : Bool :=
  (y % 4 = 0 && y % 100 ≠ 0) || y % 400 = 0

/-- Days in a Gregorian month. -/
def daysInMonth (y m : Nat) : Nat :=
  if m = 2 then (if isLeap y then 29 else 28)
  else if m = 4 || m = 6 || m = 9 || m = 11 then 30
  else 31

/-- Days from the Unix epoch to the civil date `y-m-d` (proleptic Gregorian,
the standard era-based day-count algorithm). -/
def daysFromCivil (y m d : Nat) : Int :=
  let yi : Int := if m ≤ 2 then (y : Int) - 1 else (y : Int)
  let era : Int := Int.fdiv yi 400
  let yoe : Int := yi - era * 400
  let mp : Int := Int.fmod ((m : Int) + 9) 12
  let doy : Int := Int.fdiv (153 * mp + 2) 5 + (d : Int) - 1
  let doe : Int := yoe * 365 + Int.fdiv yoe 4 - Int.fdiv yoe 100 + doy
  era * 146097 + doe - 719468

/-- Modelled from the spec: `new Date(string)` (a JavaScript built-in outside
this repository) "first attempted as a standard date/time format".  Modelled
as the strict ISO calendar-date form `YYYY-MM-DD` with in-range month and
day, parsed as UTC midnight.  V8's lenient parser accepts further shapes
(e.g. `2024/01/01`, `2024-1-5`); for the inputs this system feeds it those
are covered equivalently by the regexp fallback below, which reduces to this
ISO form. -/
def isoParse (s : String) : Option Int :=
  match s.data with
  | [c1, c2, c3, c4, '-', c5, c6, '-', c7, c8] =>
    if (c1.isDigit && c2.isDigit && c3.isDigit && c4.isDigit &&
        c5.isDigit && c6.isDigit && c7.isDigit && c8.isDigit) then
      let y := digitsVal [c1, c2, c3, c4]
      let m := digitsVal [c5, c6]
      let d := digitsVal [c7, c8]
      if 1 ≤ m && m ≤ 12 && 1 ≤ d && d ≤ daysInMonth y m then
        some (86400000 * daysFromCivil y m d)
      else none
    else none
  | _ => none

/-- Exactly four digits at the current position (the `\d{4}` atom). -/
def digits4 : List Char → Option (List Char × List Char)
  | a :: b :: c :: d :: rest =>
    if a.isDigit && b.isDigit && c.isDigit && d.isDigit then
      some ([a, b, c, d], rest)
    else none
  | _ => none

/-- The `\d{1,2}` atom followed by a required separator: greedy two digits
first, then the one-digit alternative — the full backtracking behaviour of
the source regexps, where the two alternatives are mutually exclusive. -/
def digits12sep (sep : Char) : List Char → Option (List Char × List Char)
  | a :: b :: t =>
    if a.isDigit then
      if b.isDigit then
        match t with
        | s :: t' => if s = sep then some ([a, b], t') else none
        | [] => none
      else if b = sep then some ([a], t) else none
    else none
  | _ => none

/-- A trailing `\d{1,2}` atom (greedy, nothing required after it). -/
def digits12 : List Char → Option (List Char)
  | a :: b :: _ =>
    if a.isDigit then some (if b.isDigit then [a, b] else [a]) else none
  | [a] => if a.isDigit then some [a] else none
  | [] => none

/-- The `/(\d{4})sep(\d{1,2})sep(\d{1,2})/` patterns, tried at one position. -/
def tryYMD (sep : Char) (cs : List Char) : Option (String × String × String) :=
  match digits4 cs with
  | some (g1, r1) =>
    match r1 with
    | s :: r2 =>
      if s = sep then
        match digits12sep sep r2 with
        | some (g2, r3) =>
          match digits12 r3 with
          | some g3 => some (⟨g1⟩, ⟨g2⟩, ⟨g3⟩)
          | none => none
        | none => none
      else none
    | [] => none
  | none => none

/-- The `/(\d{1,2})\/(\d{1,2})\/(\d{4})/` pattern, tried at one position. -/
def tryMDY (cs : List Char) : Option (String × String × String) :=
  match digits12sep '/' cs with
  | some (g1, r1) =>
    match digits12sep '/' r1 with
    | some (g2, r2) =>
      match digits4 r2 with
      | some (g3, _) => some (⟨g1⟩, ⟨g2⟩, ⟨g3⟩)
      | none => none
    | none => none
  | none => none

/-- Unanchored search: try the pattern at every position, leftmost first
(`String.prototype.match` with a non-global regexp). -/
def searchList {α : Type} (f : List Char → Option α) : List Char → Option α
  | [] => f []
  | c :: t =>
    match f (c :: t) with
    | some r => some r
    | none => searchList f t

/-- `month.padStart(2, '0')`. -/
def pad2 (s : String) : String :=
  ⟨List.replicate (2 - s.length) '0' ++ s.data⟩

/-- From a regexp match, pick year/month/day groups as the source does
(`match[1].length === 4` decides the orientation), zero-pad, rebuild an ISO
string and parse it. -/
def ofGroups : Option (String × String × String) → Option Int
  | some (g1, g2, g3) =>
    let y := if g1.length = 4 then g1 else g3
    let m := if g1.length = 4 then g2 else g1
    let d := if g1.length = 4 then g3 else g2
    isoParse (y ++ "-" ++ pad2 m ++ "-" ++ pad2 d)
  | none => none

/-- `parseDate` on a string: the standard parse first, then the three
fallback patterns in source order; a pattern whose reconstructed date is
invalid falls through to the next (the `isNaN` check in the loop). -/
def parseDateString (s : String) : Option Int :=
  match isoParse s with
  | some ms => some ms
  | none =>
    match ofGroups (searchList (tryYMD '/') s.data) with
    | some ms => some ms
    | none =>
      match ofGroups (searchList (tryYMD '-') s.data) with
      | some ms => some ms
      | none => ofGroups (searchList tryMDY s.data)

/-- `parseDate` from `normalizationService`: numbers are Unix times, with
values below `10000000000` read as seconds (× 1000) and otherwise as
milliseconds; strings go through the standard-then-fallback parse; every
other value yields `null`.  (`value instanceof Date` cannot occur for a
JSON payload.) -/
def parseDate : JVal → DateOut
  | .vnum q => if q < 10000000000 then timeClip (qMulNat q 1000) else timeClip q
  | .vstr s =>
    match parseDateString s with
    | some ms => .val ms
    | none => .nullv
  | _ => .nullv

/-! ## SHA-256

`generateEventHash` calls Node's `crypto.createHash('sha256')` on the
pipe-joined canonical string and takes the lowercase hex digest.  The
algorithm is implemented here over `Nat` with explicit reduction modulo
`2^32`, on the UTF-8 bytes of the input string. -/

/-- UTF-8 encoding of one character (RFC 3629), as byte values. -/
def utf8Bytes (c : Char) : List Nat :=
  let n := c.toNat
  if n < 128 then [n]
  else if n < 2048 then [192 ||| (n >>> 6), 128 ||| (n &&& 63)]
  else if n < 65536 then
    [224 ||| (n >>> 12), 128 ||| ((n >>> 6) &&& 63), 128 ||| (n &&& 63)]
  else
    [240 ||| (n >>> 18), 128 ||| ((n >>> 12) &&& 63),
     128 ||| ((n >>> 6) &&& 63), 128 ||| (n &&& 63)]

/-- The UTF-8 bytes of a string (`hash.update(str)` uses UTF-8). -/
def strBytes (s : String) : List Nat :=
  (s.data.map utf8Bytes).flatten

/-- SHA-256 padding: `0x80`, zeros to 56 mod 64, then the 64-bit big-endian
bit length. -/
def shaPad (bs : List Nat) : List Nat :=
  let L := bs.length
  let padLen := (119 - (L % 64)) % 64
  let bits := 8 * L
  bs ++ [128] ++ List.replicate padLen 0 ++
    [(bits >>> 56) &&& 255, (bits >>> 48) &&& 255, (bits >>> 40) &&& 255,
     (bits >>> 32) &&& 255, (bits >>> 24) &&& 255, (bits >>> 16) &&& 255,
     (bits >>> 8) &&& 255, bits &&& 255]

/-- Split a list into 64-byte blocks; structurally recursive on a fuel
bound so that it reduces inside the kernel. -/
def toBlocksF : Nat → List Nat → List (List Nat)
  | 0, _ => []
  | f + 1, bs => if bs.isEmpty then [] else bs.take 64 :: toBlocksF f (bs.drop 64)

/-- Split a padded message into 64-byte blocks (the length is always a
sufficient fuel bound, since each step consumes at least one element). -/
def toBlocks (bs : List Nat) : List (List Nat) :=
  toBlocksF bs.length bs

/-- Big-endian 32-bit words of a block. -/
def wordsOf : List Nat → List Nat
  | a :: b :: c :: d :: rest =>
    ((((a <<< 8) ||| b) <<< 8 ||| c) <<< 8 ||| d) :: wordsOf rest
  | _ => []

/-- Right rotation of a 32-bit word. -/
def rotr (n x : Nat) : Nat :=
  ((x >>> n) ||| (x <<< (32 - n))) % 4294967296

/-- The eight working/chaining variables of SHA-256. -/
structure Hash8 : Type where
  h0 : Nat
  h1 : Nat
  h2 : Nat
  h3 : Nat
  h4 : Nat
  h5 : Nat
  h6 : Nat
  h7 : Nat

/-- The SHA-256 round constants (FIPS 180-4, in decimal). -/
def shaK : List Nat :=
  [1116352408, 1899447441, 3049323471, 3921009573,
   961987163, 1508970993, 2453635748, 2870763221,
   3624381080, 310598401, 607225278, 1426881987,
   1925078388, 2162078206, 2614888103, 3248222580,
   3835390401, 4022224774, 264347078, 604807628,
   770255983, 1249150122, 1555081692, 1996064986,
   2554220882, 2821834349, 2952996808, 3210313671,
   3336571891, 3584528711, 113926993, 338241895,
   666307205, 773529912, 1294757372, 1396182291,
   1695183700, 1986661051, 2177026350, 2456956037,
   2730485921, 2820302411, 3259730800, 3345764771,
   3516065817, 3600352804, 4094571909, 275423344,
   430227734, 506948616, 659060556, 883997877,
   958139571, 1322822218, 1537002063, 1747873779,
   1955562222, 2024104815, 2227730452, 2361852424,
   2428436474, 2756734187, 3204031479, 3329325298]

/-- The SHA-256 initial hash value (FIPS 180-4, in decimal). -/
def shaIV : Hash8 :=
  ⟨1779033703, 3144134277, 1013904242, 2773480762,
   1359893119, 2600822924, 528734635, 1541459225⟩

/-- Message-schedule extension: the reversed schedule so far, extended by
`k` further words. -/
def extendSched (wrev : List Nat) : Nat → List Nat
  | 0 => wrev
  | k + 1 =>
    let w2 := wrev.getD 1 0
    let w7 := wrev.getD 6 0
    let w15 := wrev.getD 14 0
    let w16 := wrev.getD 15 0
    let s0 := (rotr 7 w15) ^^^ (rotr 18 w15) ^^^ (w15 >>> 3)
    let s1 := (rotr 17 w2) ^^^ (rotr 19 w2) ^^^ (w2 >>> 10)
    extendSched (((w16 + s0 + w7 + s1) % 4294967296) :: wrev) k

/-- One SHA-256 compression round. -/
def shaRound (t : Hash8) (kw : Nat × Nat) : Hash8 :=
  let S1 := (rotr 6 t.h4) ^^^ (rotr 11 t.h4) ^^^ (rotr 25 t.h4)
  let ch := (t.h4 &&& t.h5) ^^^ ((4294967295 ^^^ t.h4) &&& t.h6)
  let temp1 := (t.h7 + S1 + ch + kw.1 + kw.2) % 4294967296
  let S0 := (rotr 2 t.h0) ^^^ (rotr 13 t.h0) ^^^ (rotr 22 t.h0)
  let maj := (t.h0 &&& t.h1) ^^^ (t.h0 &&& t.h2) ^^^ (t.h1 &&& t.h2)
  let temp2 := (S0 + maj) % 4294967296
  ⟨(temp1 + temp2) % 4294967296, t.h0, t.h1, t.h2,
   (t.h3 + temp1) % 4294967296, t.h4, t.h5, t.h6⟩

/-- Compress one 64-byte block into the chaining state. -/
def shaBlock (H : Hash8) (block : List Nat) : Hash8 :=
  let ws := (extendSched (wordsOf block).reverse 48).reverse
  let f := (shaK.zip ws).foldl shaRound H
  ⟨(H.h0 + f.h0) % 4294967296, (H.h1 + f.h1) % 4294967296,
   (H.h2 + f.h2) % 4294967296, (H.h3 + f.h3) % 4294967296,
   (H.h4 + f.h4) % 4294967296, (H.h5 + f.h5) % 4294967296,
   (H.h6 + f.h6) % 4294967296, (H.h7 + f.h7) % 4294967296⟩

/-- The eight 32-bit words of the SHA-256 digest of a string. -/
def sha256Words (s : String) : List Nat :=
  let H := (toBlocks (shaPad (strBytes s))).foldl shaBlock shaIV
  [H.h0, H.h1, H.h2, H.h3, H.h4, H.h5, H.h6, H.h7]

/-- Big-endian bytes of a 32-bit word. -/
def wordBytes (w : Nat) : List Nat :=
  [(w >>> 24) &&& 255, (w >>> 16) &&& 255, (w >>> 8) &&& 255, w &&& 255]

/-- The 32 digest bytes. -/
def sha256Bytes (s : String) : List Nat :=
  ((sha256Words s).map wordBytes).flatten

/-- The lowercase hex digest, as `digest('hex')` returns it. -/
def sha256hex (s : String) : String :=
  ⟨((sha256Bytes s).map
      (fun b => [Nat.digitChar (b / 16), Nat.digitChar (b % 16)])).flatten⟩

/-! ## Normalization service

`normalizationService.js`: ordered field-name fallbacks with one level of
recursion into a nested `payload` object per step (the JS functions recurse
into `payload.payload`, which itself recurses, so chains of nested payloads
are followed to any depth).

The recursion of the four extractors descends into a value obtained by
`getField`, which is strictly smaller (`getField_sizeOf` below); they are
written structurally over a fuel argument, instantiated with `sizeOf` of
the payload — an always-sufficient bound — so that they both reduce in the
kernel and satisfy the exact recurrences of the source. -/

/-- The error message of a missing client id. -/
def clientIdErr : String := "client_id not found in event"

/-- The error message of a missing or invalid amount. -/
def amountErr : String := "amount not found or invalid in event"

/-- Candidate field names for the client id, in fallback order. -/
def clientIdFields : List String := ["source", "client_id", "clientId", "client", "origin"]

/-- Candidate field names for the metric, in fallback order. -/
def metricFields : List String := ["metric", "event_type", "type", "eventType", "name"]

/-- Candidate field names for the amount, in fallback order. -/
def amountFields : List String := ["amount", "value", "count", "quantity", "total", "price"]

/-- Candidate field names for the timestamp, in fallback order. -/
def tsFields : List String := ["timestamp", "time", "date", "created_at", "createdAt", "ts"]

/-- The first listed field that is present and not `null`
(`payload[field] !== undefined && payload[field] !== null`). -/
def firstPresent (p : JVal) (fields : List String) : Option JVal :=
  fields.findSome? fun f =>
    match getField p f with
    | some .vnull => none
    | some v => some v
    | none => none

/-- `extractClientId`, structurally on fuel: first present clientId field,
coerced by `String(·).trim()`; otherwise recurse into a truthy `payload`
object, accepting only a truthy (non-empty) nested result and propagating a
nested throw; otherwise throw. -/
def extractClientIdF : Nat → JVal → Except String String
  | 0, _ => .error clientIdErr
  | fuel + 1, p =>
    match firstPresent p clientIdFields with
    | some v => .ok (jsTrim (jsToString v))
    | none =>
      match getField p "payload" with
      | some q =>
        if jsTruthy q && isObjB q then
          match extractClientIdF fuel q with
          | .ok s => if s = "" then .error clientIdErr else .ok s
          | .error e => .error e
        else .error clientIdErr
      | none => .error clientIdErr

/-- `extractClientId` from `normalizationService.js`. -/
def extractClientId (p : JVal) : Except String String :=
  extractClientIdF (jsize p) p

/-- `extractMetric`: first present metric field, trimmed; otherwise a nested
result that is truthy and not `'unknown'`; otherwise `'unknown'`. -/
def extractMetricF : Nat → JVal → String
  | 0, _ => "unknown"
  | fuel + 1, p =>
    match firstPresent p metricFields with
    | some v => jsTrim (jsToString v)
    | none =>
      match getField p "payload" with
      | some q =>
        if jsTruthy q && isObjB q then
          let r := extractMetricF fuel q
          if r ≠ "" && r ≠ "unknown" then r else "unknown"
        else "unknown"
      | none => "unknown"

/-- `extractMetric` from `normalizationService.js`. -/
def extractMetric (p : JVal) : String :=
  extractMetricF (jsize p) p

/-- Per-value amount coercion: the body of the field loop.  A string is
stripped and parsed (`NaN` falls through to the next field); a number
passes through; any other type falls through. -/
def coerceAmount : JVal → Option ℚ
  | .vstr s => parseFloatStripped s
  | .vnum q => some q
  | _ => none

/-- The field loop of `extractAmount`: first field whose present non-null
value coerces to a number. -/
def firstAmount (p : JVal) : Option ℚ :=
  amountFields.findSome? fun f =>
    match getField p f with
    | some .vnull => none
    | some v => coerceAmount v
    | none => none

/-- `extractAmount`: the field loop, then a nested payload (whose throw
propagates, `nestedAmount !== null` never failing on a returned number),
else throw. -/
def extractAmountF : Nat → JVal → Except String ℚ
  | 0, _ => .error amountErr
  | fuel + 1, p =>
    match firstAmount p with
    | some q => .ok q
    | none =>
      match getField p "payload" with
      | some q =>
        if jsTruthy q && isObjB q then extractAmountF fuel q
        else .error amountErr
      | none => .error amountErr

/-- `extractAmount` from `normalizationService.js`. -/
def extractAmount (p : JVal) : Except String ℚ :=
  extractAmountF (jsize p) p

/-- The field loop of `extractTimestamp`: first field whose present
non-null value parses to a valid date (the `isNaN` guard). -/
def firstTs (p : JVal) : Option Int :=
  tsFields.findSome? fun f =>
    match getField p f with
    | some .vnull => none
    | some v =>
      match parseDate v with
      | .val ms => some ms
      | _ => none
    | none => none

/-- `extractTimestamp`: the field loop, then a nested payload — whose
result, being a `Date` object, is always truthy and is therefore returned
unconditionally — else the current time (`new Date()`). -/
def extractTimestampF : Nat → Int → JVal → Int
  | 0, now, _ => now
  | fuel + 1, now, p =>
    match firstTs p with
    | some ms => ms
    | none =>
      match getField p "payload" with
      | some q =>
        if jsTruthy q && isObjB q then extractTimestampF fuel now q
        else now
      | none => now

/-- `extractTimestamp` from `normalizationService.js`; `now` is the current
time supplied to the defaulting branch. -/
def extractTimestamp (p : JVal) (now : Int) : Int :=
  extractTimestampF (jsize p) now p

/-- The four canonical fields of an event. -/
structure Canon : Type where
  clientId : String
  metric : String
  amount : ℚ
  timestamp : Int
deriving DecidableEq, Repr

/-- The pipe-joined hash input
`clientId|metric|amount|timestamp` of `generateEventHash`, with the
template-literal renderings of the amount and the timestamp `Date`. -/
def hashInput (c : Canon) : String :=
  c.clientId ++ "|" ++ c.metric ++ "|" ++ renderNum c.amount ++ "|" ++
    renderDate c.timestamp

/-- `generateEventHash`: the SHA-256 hex digest of the pipe-joined
canonical fields. -/
def generateEventHash (c : Canon) : String :=
  sha256hex (hashInput c)

/-- A successful normalization result: the canonical fields plus the
identity hash. -/
structure NormalizedData extends Canon : Type where
  eventHash : String
deriving DecidableEq, Repr

/-- `normalize`: clientId from the raw event, the other fields from
`rawEvent.payload || rawEvent`; evaluation order of the object literal
makes a clientId throw surface before an amount throw.  The original
payload retained alongside the result is the raw argument itself. -/
def normalize (raw : JVal) (now : Int) : Except String NormalizedData :=
  let payload := match getField raw "payload" with
    | some pv => if jsTruthy pv then pv else raw
    | none => raw
  match extractClientId raw with
  | .error e => .error e
  | .ok cid =>
    let metric := extractMetric payload
    match extractAmount payload with
    | .error e => .error e
    | .ok amt =>
      let ts := extractTimestamp payload now
      let c : Canon := ⟨cid, metric, amt, ts⟩
      .ok ⟨c, generateEventHash c⟩

/-! ## Stores and system state

`fileStorage.js` keeps two collections (events, dedup records) and assigns
ids via `crypto.randomUUID()`.  The state carries both collections, a
fresh-id counter standing in for the UUID source (ids are opaque unique
identifiers), and streams supplying `Date.now()` / `Math.random()` draws:
one draw of each per pipeline call, read at the call's start (the pipeline
reads the clock several times within one call; the claims are insensitive
to intra-call clock drift, so one value per call is used). -/

/-- A stored canonical event record. -/
structure EventRec : Type where
  _id : String
  clientId : String
  metric : String
  amount : ℚ
  timestamp : Int
  eventHash : String
  status : String
  rejectionReason : Option String
  originalPayload : JVal
  retryCount : Nat
  processedAt : Int
  createdAt : Int
  updatedAt : Int

/-- A stored deduplication (identity) record. -/
structure DedupRec : Type where
  eventHash : String
  clientId : String
  eventId : String
  processedAt : Int
  createdAt : Int
  updatedAt : Int

/-- The system state: the two collections plus the environment streams. -/
structure SysState : Type where
  events : List EventRec
  dedups : List DedupRec
  nextId : Nat
  tick : Nat
  timeline : Nat → Int
  rands : Nat → Nat

/-- The `Date.now()` value of the current call. -/
def nowOf (st : SysState) : Int := st.timeline st.tick

/-- The `Math.random()` draw of the current call. -/
def rndOf (st : SysState) : Nat := st.rands st.tick

/-- Advance to the next call's draws. -/
def bump (st : SysState) : SysState := { st with tick := st.tick + 1 }

/-- A fresh id from the UUID source (`crypto.randomUUID()`). -/
def freshId (n : Nat) : String := "uuid-" ++ Nat.repr n

/-- `fileStorage.createEvent`: assign `_id`, `createdAt`, `updatedAt` and
push onto the collection. -/
def createEvent (now : Int) (e : EventRec) (st : SysState) : EventRec × SysState :=
  let e' := { e with _id := freshId st.nextId, createdAt := now, updatedAt := now }
  (e', { st with events := st.events ++ [e'], nextId := st.nextId + 1 })

/-- `fileStorage.findEventById`: first record with the id, else `null`. -/
def findEventById (i : String) (st : SysState) : Option EventRec :=
  st.events.find? (fun e => e._id == i)

/-- `fileStorage.deleteEventById`: remove every record with the id. -/
def deleteEventById (i : String) (st : SysState) : SysState :=
  { st with events := st.events.filter (fun e => !(e._id == i)) }

/-- `fileStorage.findDedupRecord`: first record with the hash, else `null`. -/
def findDedupRecord (h : String) (st : SysState) : Option DedupRec :=
  st.dedups.find? (fun r => r.eventHash == h)

/-- `fileStorage.upsertDedupRecord` on the collection: replace the first
record with the hash (preserving its `createdAt`), or push a new one. -/
def upsertDedupList (h cid eid : String) (now : Int) : List DedupRec → List DedupRec
  | [] => [⟨h, cid, eid, now, now, now⟩]
  | r :: t =>
    if r.eventHash == h then ⟨h, cid, eid, now, r.createdAt, now⟩ :: t
    else r :: upsertDedupList h cid eid now t

/-- `fileStorage.upsertDedupRecord`. -/
def upsertDedupRecord (h cid eid : String) (now : Int) (st : SysState) : SysState :=
  { st with dedups := upsertDedupList h cid eid now st.dedups }

/-! ## Deduplication service (`deduplicationService.js`)

Storage-level faults are not modelled, so the `catch` fallbacks of the
three methods (assume-not-duplicate / assume-exists / `null`) are
unreachable and do not appear. -/

/-- `isDuplicate`: whether a dedup record with this hash exists. -/
def isDuplicateB (h : String) (st : SysState) : Bool :=
  (findDedupRecord h st).isSome

/-- `getExistingEventId`: the event id a dedup record points to, if any. -/
def getExistingEventId (h : String) (st : SysState) : Option String :=
  (findDedupRecord h st).map (fun r => r.eventId)

/-- `recordProcessedEvent`: report `false` if a record for the hash already
exists, else upsert one and report `true`. -/
def recordProcessedEvent (h cid eid : String) (now : Int) (st : SysState) :
    Bool × SysState :=
  match findDedupRecord h st with
  | some _ => (false, st)
  | none => (true, upsertDedupRecord h cid eid now st)

/-! ## Ingestion pipeline (`eventProcessingService.js`) -/

/-- The synthetic identity hash of a rejected record:
`` `rejected_${Date.now()}_${Math.random()}` `` (the random draw rendered
decimally by its stream value). -/
def rejectedHash (now : Int) (rnd : Nat) : String :=
  "rejected_" ++ Int.repr now ++ "_" ++ Nat.repr rnd

/-- The result object `{ success, event, isDuplicate, error }`. -/
structure PResult : Type where
  success : Bool
  event : Option EventRec
  isDuplicate : Bool
  error : Option String

/-- Outcome of one `processEvent` call: a returned result, or a thrown
exception escaping the function. -/
inductive POut : Type where
  | ret (r : PResult)
  | threw (msg : String)

/-- The result object of a call, when it returned rather than threw. -/
def POut.resultOf : POut → Option PResult
  | .ret r => some r
  | .threw _ => none

/-- The rejected-record template of step 1 (constructor defaults
`processedAt := now`, `retryCount := 0` folded in; `_id`, `createdAt`,
`updatedAt` are overwritten by `createEvent`). -/
def mkRejectedEvent (raw : JVal) (err : String) (now : Int) (rnd : Nat) : EventRec :=
  { _id := "", clientId := "unknown", metric := "rejected", amount := 0,
    timestamp := now, eventHash := rejectedHash now rnd, status := "rejected",
    rejectionReason := some err, originalPayload := raw, retryCount := 0,
    processedAt := now, createdAt := 0, updatedAt := 0 }

/-- The processed-record template of step 4: the spread of the normalized
fields, with status `processed` and the original payload. -/
def mkProcessedEvent (nf : NormalizedData) (raw : JVal) (now : Int) : EventRec :=
  { _id := "", clientId := nf.clientId, metric := nf.metric, amount := nf.amount,
    timestamp := nf.timestamp, eventHash := nf.eventHash, status := "processed",
    rejectionReason := none, originalPayload := raw, retryCount := 0,
    processedAt := now, createdAt := 0, updatedAt := 0 }

/-- `processEvent`, with interference points: `i1` and `i2` are the store
mutations other concurrent calls perform at the two `await` boundaries of
step 4 — between the event write and the identity registration (`i1`, the
race window), and between losing the registration and the repair re-lookup
(`i2`).  The sequential `processEvent` is this with both set to `id`.

Control flow, after `normalizationService.normalize`:
* normalization failure → save a rejected record with a synthetic hash and
  return `success = false` (storage-level faults are not modelled, so the
  rejected save cannot itself fail);
* duplicate check: if a dedup record exists *and* yields an event id, the
  referenced event (possibly `null`) is returned with `isDuplicate = true`;
* `simulateFailure` then throws — outside the `try` block, so the throw
  escapes `processEvent` itself;
* otherwise save the event, register the identity; a lost registration
  deletes the just-saved event and re-looks-up the winner — falling through
  to the `success = true, isDuplicate = false` return of the saved (now
  deleted) event when no winner is found.  Nothing inside the `try` block
  can throw in this model, so its `catch` (the `failed`-record path) is
  unreachable and does not appear. -/
def processEventI (raw : JVal) (simFail : Bool) (i1 i2 : SysState → SysState)
    (st0 : SysState) : POut × SysState :=
  let now := nowOf st0
  let rnd := rndOf st0
  let st := bump st0
  match normalize raw now with
  | .error err =>
    let (re, st1) := createEvent now (mkRejectedEvent raw err now rnd) st
    (.ret ⟨false, some re, false, some err⟩, st1)
  | .ok nf =>
    match isDuplicateB nf.eventHash st, getExistingEventId nf.eventHash st with
    | true, some eid => (.ret ⟨true, findEventById eid st, true, none⟩, st)
    | _, _ =>
      if simFail then (.threw "Simulated database failure", st)
      else
        let (ev, st1) := createEvent now (mkProcessedEvent nf raw now) st
        let st2 := i1 st1
        let (reg, st3) := recordProcessedEvent nf.eventHash nf.clientId ev._id now st2
        if reg then (.ret ⟨true, some ev, false, none⟩, st3)
        else
          let st4 := deleteEventById ev._id st3
          let st5 := i2 st4
          match getExistingEventId nf.eventHash st5 with
          | some eid =>
            match findEventById eid st5 with
            | some ex => (.ret ⟨true, some ex, true, none⟩, st5)
            | none => (.ret ⟨true, some ev, false, none⟩, st5)
          | none => (.ret ⟨true, some ev, false, none⟩, st5)

/-- `processEvent`: the sequential pipeline (no interference). -/
def processEvent (raw : JVal) (simFail : Bool) (st : SysState) : POut × SysState :=
  processEventI raw simFail id id st

/-- `processEvents`: each raw event through `processEvent` sequentially in
order, collecting the result objects; an exception escaping `processEvent`
propagates out of the loop, discarding the collected results. -/
def processEvents (raws : List JVal) (simFail : Bool) (st : SysState) :
    Except String (List PResult) × SysState :=
  match raws with
  | [] => (.ok [], st)
  | r :: rest =>
    match processEvent r simFail st with
    | (.ret res, st') =>
      match processEvents rest simFail st' with
      | (.ok l, st'') => (.ok (res :: l), st'')
      | (.error e, st'') => (.error e, st'')
    | (.threw m, st') => (.error m, st')

/-- Submit the same raw payload `n` times in sequence. -/
def submitSame (raw : JVal) : Nat → SysState → List POut × SysState
  | 0, st => ([], st)
  | n + 1, st =>
    let (o, st') := processEvent raw false st
    let (os, st'') := submitSame raw n st'
    (o :: os, st'')

/-- An initial system state: empty stores, given environment streams. -/
def initState (timeline : Nat → Int) (rands : Nat → Nat) : SysState :=
  ⟨[], [], 0, 0, timeline, rands⟩

/-! ## Aggregation (`fileStorage.aggregateEvents` and the aggregation route)

The route builds match criteria with `status: 'processed'` hard-wired and
adds `clientId` / `metric` / time-range filters only when the query
parameters are truthy; `Event.aggregate` passes the criteria and a
group-by selector through to `fileStorage.aggregateEvents`.  An invalid
`new Date(param)` bound compares as `NaN` (all comparisons false), i.e.
filters nothing — the same as an absent bound, so bounds are `Option Int`
with `none` covering both. -/

/-- Filter criteria of `aggregateEvents` (`$gte`/`$lte` as valid instants). -/
structure MatchCriteria : Type where
  status : Option String
  clientId : Option String
  metric : Option String
  tsGte : Option Int
  tsLte : Option Int

/-- One equality filter: `if (criteria.f && event.f !== criteria.f) return
false` — an absent or empty (falsy) criterion filters nothing. -/
def fieldCheck (o : Option String) (v : String) : Bool :=
  match o with
  | some s => if s = "" then true else v == s
  | none => true

/-- Whether an event passes the match criteria. -/
def matchEvent (c : MatchCriteria) (e : EventRec) : Bool :=
  fieldCheck c.status e.status &&
  fieldCheck c.clientId e.clientId &&
  fieldCheck c.metric e.metric &&
  (match c.tsGte with
   | some g => decide (g ≤ e.timestamp)
   | none => true) &&
  (match c.tsLte with
   | some l => decide (e.timestamp ≤ l)
   | none => true)

/-- The grouping key of an event (`'all'` for ungrouped aggregation; the
`both` key joins client and metric with a pipe). -/
def groupKey (groupBy : String) (e : EventRec) : String :=
  if groupBy == "clientId" then e.clientId
  else if groupBy == "metric" then e.metric
  else if groupBy == "both" then e.clientId ++ "|" ++ e.metric
  else "all"

/-- Per-group accumulator (`totalAmount`, `totalCount`, pushed amounts). -/
structure GroupData : Type where
  totalAmount : ℚ
  totalCount : Nat
  amounts : List ℚ

/-- Insert one amount into the group map, preserving first-insertion order
(a JS `Map`). -/
def addToGroups : List (String × GroupData) → String → ℚ → List (String × GroupData)
  | [], k, a => [(k, ⟨a, 1, [a]⟩)]
  | (k', g) :: t, k, a =>
    if k' == k then
      (k', ⟨g.totalAmount + a, g.totalCount + 1, g.amounts ++ [a]⟩) :: t
    else (k', g) :: addToGroups t k a

/-- The group tag of a result row. -/
inductive GroupTag : Type where
  | noneG
  | key (s : String)
  | pair (clientId metric : String)

/-- One aggregation result row. -/
structure AggRow : Type where
  totalAmount : ℚ
  totalCount : Nat
  averageAmount : ℚ
  minAmount : Option ℚ
  maxAmount : Option ℚ
  group : GroupTag

/-- Result of `aggregateEvents`: a single optional row for `groupBy =
'none'` (`results[0] || {}`), else the row list. -/
inductive AggOut : Type where
  | single (r : Option AggRow)
  | rows (l : List AggRow)

/-- Build the result row of one group: sum, count, mean, and min/max read
off the sorted amounts; the `both` tag splits the key at pipes, taking the
first two segments. -/
def rowOfGroup (groupBy : String) (k : String) (g : GroupData) : AggRow :=
  let sorted := g.amounts.mergeSort (fun a b => decide (a ≤ b))
  { totalAmount := g.totalAmount, totalCount := g.totalCount,
    averageAmount := g.totalAmount / (g.totalCount : ℚ),
    minAmount := sorted.head?, maxAmount := sorted.getLast?,
    group :=
      if groupBy == "clientId" || groupBy == "metric" then .key k
      else if groupBy == "both" then
        .pair ((k.splitOn "|").getD 0 "") ((k.splitOn "|").getD 1 "")
      else .noneG }

/-- `fileStorage.aggregateEvents`: filter by the match criteria, group,
compute each group's aggregates, sort rows by `totalAmount` descending,
and shape the result by the group-by mode. -/
def aggregateEvents (c : MatchCriteria) (groupBy : String)
    (events : List EventRec) : AggOut :=
  let filtered := events.filter (matchEvent c)
  let groups := filtered.foldl
    (fun gs e => addToGroups gs (groupKey groupBy e) e.amount) []
  let results := groups.map (fun kg => rowOfGroup groupBy kg.1 kg.2)
  let sorted := results.mergeSort (fun a b => decide (b.totalAmount ≤ a.totalAmount))
  if groupBy == "none" then .single sorted.head? else .rows sorted

/-- Drop a query parameter unless it is truthy (`if (param) criteria.f = param`). -/
def truthyOpt : Option String → Option String
  | some s => if s = "" then none else some s
  | none => none

/-- The match criteria the aggregation route builds: `status` is always
`'processed'`; the other filters only when their query parameter is truthy. -/
def routeCriteria (clientId metric : Option String)
    (startDate endDate : Option Int) : MatchCriteria :=
  { status := some "processed", clientId := truthyOpt clientId,
    metric := truthyOpt metric, tsGte := startDate, tsLte := endDate }

/-! ## Auxiliary definitions for the claims -/

/-- Decidable equality of `Except` results. -/
instance {ε α : Type} [DecidableEq ε] [DecidableEq α] : DecidableEq (Except ε α) :=
  fun a b =>
    match a, b with
    | .ok x, .ok y =>
      if h : x = y then .isTrue (by rw [h]) else .isFalse (fun he => h (by cases he; rfl))
    | .ok _, .error _ => .isFalse (fun he => by cases he)
    | .error _, .ok _ => .isFalse (fun he => by cases he)
    | .error x, .error y =>
      if h : x = y then .isTrue (by rw [h]) else .isFalse (fun he => h (by cases he; rfl))

/-- No clientId field anywhere: the top-level scan finds nothing and any
truthy nested payload object again has none.  This is the condition under
which `extractClientId` throws. -/
def noClientFieldF : Nat → JVal → Bool
  | 0, _ => true
  | fuel + 1, p =>
    (firstPresent p clientIdFields).isNone &&
    (match getField p "payload" with
     | some q => if jsTruthy q && isObjB q then noClientFieldF fuel q else true
     | none => true)

/-- `noClientFieldF` at the standard fuel. -/
def noClientField (p : JVal) : Bool := noClientFieldF (jsize p) p

/-- No amount field yields a valid number, at any payload nesting level:
the condition under which `extractAmount` throws. -/
def noAmountF : Nat → JVal → Bool
  | 0, _ => true
  | fuel + 1, p =>
    (firstAmount p).isNone &&
    (match getField p "payload" with
     | some q => if jsTruthy q && isObjB q then noAmountF fuel q else true
     | none => true)

/-- `noAmountF` at the standard fuel. -/
def noAmount (p : JVal) : Bool := noAmountF (jsize p) p

/-- The record the first submission of a normalizable payload stores: the
processed-event template with the id and stamps `createEvent` assigns. -/
def newEventOf (nf : NormalizedData) (raw : JVal) (st : SysState) : EventRec :=
  { mkProcessedEvent nf raw (nowOf st) with
    _id := freshId st.nextId, createdAt := nowOf st, updatedAt := nowOf st }

/-- The identity record the first submission registers. -/
def newDedupOf (nf : NormalizedData) (st : SysState) : DedupRec :=
  ⟨nf.eventHash, nf.clientId, freshId st.nextId, nowOf st, nowOf st, nowOf st⟩

/-- Race interference: inside the race window a concurrent winner
registers the contested hash, pointing at its own (foreign) event id. -/
def raceWinnerI (s : SysState) : SysState :=
  { s with dedups :=
      [⟨generateEventHash ⟨"a", "unknown", 1, 1704067200000⟩, "a", "ghost-id", 0, 0, 0⟩] }

/-- Race interference: the winning identity record vanishes before the
repair re-lookup (the `RaceRepairFailure` precondition). -/
def raceVanishI (s : SysState) : SysState :=
  { s with dedups := [] }

/-! ## Shared helper lemmas -/

/-- A value found by `jlookup` is strictly smaller than the field list. -/
theorem jlookup_jsize : ∀ {fs : JFields} {k : String} {v : JVal},
    jlookup fs k = some v → jsize v < jsizeF fs
  | .nil, k, v, h => by simp [jlookup] at h
  | .cons ka va t, k, v, h => by
    simp only [jlookup] at h
    by_cases hk : (k == ka) = true
    · rw [if_pos hk] at h
      cases h
      simp only [jsizeF]
      omega
    · rw [if_neg hk] at h
      have := jlookup_jsize h
      simp only [jsizeF]
      omega

/-- A field's value is strictly smaller than the object holding it. -/
theorem getField_jsize {p : JVal} {k : String} {q : JVal}
    (h : getField p k = some q) : jsize q < jsize p := by
  cases p <;> simp only [getField] at h <;> try exact absurd h (by simp)
  case vobj fs =>
    have := jlookup_jsize h
    simp only [jsize]
    omega

/-- Every JSON value has positive size. -/
theorem jsize_pos (p : JVal) : 1 ≤ jsize p := by
  cases p <;> simp [jsize]

/-- `qMulNat` is multiplication. -/
theorem qMulNat_eq (q : ℚ) (n : Nat) : qMulNat q n = q * n := by
  rw [qMulNat, Rat.mkRat_eq_div]
  push_cast
  rw [mul_comm, mul_div_assoc, Rat.num_div_den, mul_comm]

/-! ### Fuel adequacy

The four extractors recurse only into a strictly smaller payload
(`getField_jsize`), so any fuel of at least `jsize p` gives the same
result; the recurrence theorems below then show the wrappers satisfy the
source functions' exact recursion. -/

/-- `extractClientIdF` is fuel-insensitive above `jsize`. -/
theorem extractClientIdF_congr : ∀ (f1 f2 : Nat) (p : JVal),
    jsize p ≤ f1 → jsize p ≤ f2 → extractClientIdF f1 p = extractClientIdF f2 p := by
  intro f1
  induction f1 using Nat.strong_induction_on with
  | _ f1 ih =>
    intro f2 p h1 h2
    cases f1 with
    | zero =>
      have := jsize_pos p
      omega
    | succ k1 =>
      cases f2 with
      | zero =>
        have := jsize_pos p
        omega
      | succ k2 =>
        simp only [extractClientIdF]
        split
        · rfl
        · split
          · rename_i q hg
            by_cases ht : (jsTruthy q && isObjB q) = true
            · rw [if_pos ht, if_pos ht]
              have hq : jsize q < jsize p := getField_jsize hg
              rw [ih k1 (by omega) k2 q (by omega) (by omega)]
            · rw [if_neg ht, if_neg ht]
          · rfl

/-- `extractClientId` satisfies the recursion of the source function. -/
theorem extractClientId_eq (p : JVal) :
    extractClientId p =
      match firstPresent p clientIdFields with
      | some v => .ok (jsTrim (jsToString v))
      | none =>
        match getField p "payload" with
        | some q =>
          if jsTruthy q && isObjB q then
            match extractClientId q with
            | .ok s => if s = "" then .error clientIdErr else .ok s
            | .error e => .error e
          else .error clientIdErr
        | none => .error clientIdErr := by
  unfold extractClientId
  cases hs : jsize p with
  | zero =>
    have := jsize_pos p
    omega
  | succ k =>
    simp only [extractClientIdF]
    split
    · rfl
    · split
      · rename_i q hg
        by_cases ht : (jsTruthy q && isObjB q) = true
        · rw [if_pos ht, if_pos ht]
          have hk : jsize q ≤ k := by
            have h1 := getField_jsize hg
            omega
          rw [extractClientIdF_congr k (jsize q) q hk (Nat.le_refl _)]
        · rw [if_neg ht, if_neg ht]
      · rfl

/-- `extractMetricF` is fuel-insensitive above `jsize`. -/
theorem extractMetricF_congr : ∀ (f1 f2 : Nat) (p : JVal),
    jsize p ≤ f1 → jsize p ≤ f2 → extractMetricF f1 p = extractMetricF f2 p := by
  intro f1
  induction f1 using Nat.strong_induction_on with
  | _ f1 ih =>
    intro f2 p h1 h2
    cases f1 with
    | zero =>
      have := jsize_pos p
      omega
    | succ k1 =>
      cases f2 with
      | zero =>
        have := jsize_pos p
        omega
      | succ k2 =>
        simp only [extractMetricF]
        split
        · rfl
        · split
          · rename_i q hg
            by_cases ht : (jsTruthy q && isObjB q) = true
            · rw [if_pos ht, if_pos ht]
              have hq : jsize q < jsize p := getField_jsize hg
              rw [ih k1 (by omega) k2 q (by omega) (by omega)]
            · rw [if_neg ht, if_neg ht]
          · rfl

/-- `extractMetric` satisfies the recursion of the source function. -/
theorem extractMetric_eq (p : JVal) :
    extractMetric p =
      match firstPresent p metricFields with
      | some v => jsTrim (jsToString v)
      | none =>
        match getField p "payload" with
        | some q =>
          if jsTruthy q && isObjB q then
            if extractMetric q ≠ "" && extractMetric q ≠ "unknown" then
              extractMetric q
            else "unknown"
          else "unknown"
        | none => "unknown" := by
  unfold extractMetric
  cases hs : jsize p with
  | zero =>
    have := jsize_pos p
    omega
  | succ k =>
    simp only [extractMetricF]
    split
    · rfl
    · split
      · rename_i q hg
        by_cases ht : (jsTruthy q && isObjB q) = true
        · rw [if_pos ht, if_pos ht]
          have hk : jsize q ≤ k := by
            have h1 := getField_jsize hg
            omega
          rw [extractMetricF_congr k (jsize q) q hk (Nat.le_refl _)]
        · rw [if_neg ht, if_neg ht]
      · rfl

/-- `extractAmountF` is fuel-insensitive above `jsize`. -/
theorem extractAmountF_congr : ∀ (f1 f2 : Nat) (p : JVal),
    jsize p ≤ f1 → jsize p ≤ f2 → extractAmountF f1 p = extractAmountF f2 p := by
  intro f1
  induction f1 using Nat.strong_induction_on with
  | _ f1 ih =>
    intro f2 p h1 h2
    cases f1 with
    | zero =>
      have := jsize_pos p
      omega
    | succ k1 =>
      cases f2 with
      | zero =>
        have := jsize_pos p
        omega
      | succ k2 =>
        simp only [extractAmountF]
        split
        · rfl
        · split
          · rename_i q hg
            by_cases ht : (jsTruthy q && isObjB q) = true
            · rw [if_pos ht, if_pos ht]
              have hq : jsize q < jsize p := getField_jsize hg
              exact ih k1 (by omega) k2 q (by omega) (by omega)
            · rw [if_neg ht, if_neg ht]
          · rfl

/-- `extractAmount` satisfies the recursion of the source function. -/
theorem extractAmount_eq (p : JVal) :
    extractAmount p =
      match firstAmount p with
      | some q => .ok q
      | none =>
        match getField p "payload" with
        | some q =>
          if jsTruthy q && isObjB q then extractAmount q
          else .error amountErr
        | none => .error amountErr := by
  unfold extractAmount
  cases hs : jsize p with
  | zero =>
    have := jsize_pos p
    omega
  | succ k =>
    simp only [extractAmountF]
    split
    · rfl
    · split
      · rename_i q hg
        by_cases ht : (jsTruthy q && isObjB q) = true
        · rw [if_pos ht, if_pos ht]
          have hk : jsize q ≤ k := by
            have h1 := getField_jsize hg
            omega
          exact extractAmountF_congr k (jsize q) q hk (Nat.le_refl _)
        · rw [if_neg ht, if_neg ht]
      · rfl

/-- `extractTimestampF` is fuel-insensitive above `jsize`. -/
theorem extractTimestampF_congr : ∀ (f1 f2 : Nat) (now : Int) (p : JVal),
    jsize p ≤ f1 → jsize p ≤ f2 →
    extractTimestampF f1 now p = extractTimestampF f2 now p := by
  intro f1
  induction f1 using Nat.strong_induction_on with
  | _ f1 ih =>
    intro f2 now p h1 h2
    cases f1 with
    | zero =>
      have := jsize_pos p
      omega
    | succ k1 =>
      cases f2 with
      | zero =>
        have := jsize_pos p
        omega
      | succ k2 =>
        simp only [extractTimestampF]
        split
        · rfl
        · split
          · rename_i q hg
            by_cases ht : (jsTruthy q && isObjB q) = true
            · rw [if_pos ht, if_pos ht]
              have hq : jsize q < jsize p := getField_jsize hg
              exact ih k1 (by omega) k2 now q (by omega) (by omega)
            · rw [if_neg ht, if_neg ht]
          · rfl

/-- `extractTimestamp` satisfies the recursion of the source function. -/
theorem extractTimestamp_eq (p : JVal) (now : Int) :
    extractTimestamp p now =
      match firstTs p with
      | some ms => ms
      | none =>
        match getField p "payload" with
        | some q =>
          if jsTruthy q && isObjB q then extractTimestamp q now
          else now
        | none => now := by
  unfold extractTimestamp
  cases hs : jsize p with
  | zero =>
    have := jsize_pos p
    omega
  | succ k =>
    simp only [extractTimestampF]
    split
    · rfl
    · split
      · rename_i q hg
        by_cases ht : (jsTruthy q && isObjB q) = true
        · rw [if_pos ht, if_pos ht]
          have hk : jsize q ≤ k := by
            have h1 := getField_jsize hg
            omega
          exact extractTimestampF_congr k (jsize q) now q hk (Nat.le_refl _)
        · rw [if_neg ht, if_neg ht]
      · rfl

/-- `Nat.digitChar` never yields an underscore: below 16 it is a
hexadecimal digit, above it is `'*'`. -/
theorem digitChar_ne_underscore : ∀ k : Nat, Nat.digitChar k ≠ '_'
  | 0 | 1 | 2 | 3 | 4 | 5 | 6 | 7 | 8 | 9 | 10 | 11 | 12 | 13 | 14 | 15 => by decide
  | n + 16 => by
    unfold Nat.digitChar
    simp_arith

/-- `Nat.digitChar` never yields the letter `r`. -/
theorem digitChar_ne_r : ∀ k : Nat, Nat.digitChar k ≠ 'r'
  | 0 | 1 | 2 | 3 | 4 | 5 | 6 | 7 | 8 | 9 | 10 | 11 | 12 | 13 | 14 | 15 => by decide
  | n + 16 => by
    unfold Nat.digitChar
    simp_arith

/-- Every character placed by `Nat.toDigitsCore` is a digit character or
comes from the accumulator. -/
theorem toDigitsCore_chars (b : Nat) :
    ∀ (fuel n : Nat) (acc : List Char) (c : Char),
      c ∈ Nat.toDigitsCore b fuel n acc →
      (∃ k, c = Nat.digitChar k) ∨ c ∈ acc := by
  intro fuel
  induction fuel with
  | zero =>
    intro n acc c hc
    simp only [Nat.toDigitsCore] at hc
    exact .inr hc
  | succ f ih =>
    intro n acc c hc
    simp only [Nat.toDigitsCore] at hc
    by_cases hz : n / b = 0
    · rw [if_pos hz] at hc
      rcases List.mem_cons.mp hc with hceq | hmem
      · exact .inl ⟨n % b, hceq⟩
      · exact .inr hmem
    · rw [if_neg hz] at hc
      rcases ih (n / b) (Nat.digitChar (n % b) :: acc) c hc with hd | hmem
      · exact .inl hd
      · rcases List.mem_cons.mp hmem with hceq | hmem2
        · exact .inl ⟨n % b, hceq⟩
        · exact .inr hmem2

/-- No underscore occurs in the decimal rendering of a natural number. -/
theorem natRepr_no_underscore (n : Nat) : '_' ∉ (Nat.repr n).data := by
  intro hmem
  have hdata : (Nat.repr n).data = Nat.toDigits 10 n := rfl
  rw [hdata, Nat.toDigits] at hmem
  rcases toDigitsCore_chars 10 (n + 1) n [] '_' hmem with ⟨k, hk⟩ | h
  · exact digitChar_ne_underscore k hk.symm
  · cases h

/-- No underscore occurs in the decimal rendering of an integer. -/
theorem intRepr_no_underscore (n : Int) : '_' ∉ (Int.repr n).data := by
  cases n with
  | ofNat m => exact natRepr_no_underscore m
  | negSucc m =>
    intro hmem
    have hd : (Int.repr (Int.negSucc m)).data = '-' :: (Nat.repr (m + 1)).data := rfl
    rw [hd] at hmem
    rcases List.mem_cons.mp hmem with hceq | hmem2
    · exact absurd hceq (by decide)
    · exact natRepr_no_underscore (m + 1) hmem2

/-- Splitting two equal lists at a marker character absent from both
prefixes identifies prefixes and suffixes. -/
theorem split_at_marker {m : Char} :
    ∀ {xs xs' ys ys' : List Char}, m ∉ xs → m ∉ xs' →
      xs ++ m :: ys = xs' ++ m :: ys' → xs = xs' ∧ ys = ys'
  | [], [], _, _, _, _, h => by simpa using h
  | [], c' :: t', _, _, _, hx', h => by
    simp only [List.nil_append, List.cons_append, List.cons.injEq] at h
    exact absurd (h.1 ▸ List.mem_cons_self c' t') hx'
  | c :: t, [], _, _, hx, _, h => by
    simp only [List.cons_append, List.nil_append, List.cons.injEq] at h
    exact absurd (h.1 ▸ List.mem_cons_self c t) hx
  | c :: t, c' :: t', ys, ys', hx, hx', h => by
    simp only [List.cons_append, List.cons.injEq] at h
    have ht := split_at_marker (fun hm => hx (List.mem_cons_of_mem c hm))
      (fun hm => hx' (List.mem_cons_of_mem c' hm)) h.2
    exact ⟨by rw [h.1, ht.1], ht.2⟩

/-- The hex digest is a nonempty string beginning with a digit character. -/
theorem sha256hex_head (s : String) :
    ∃ k rest, (sha256hex s).data = Nat.digitChar k :: rest :=
  ⟨_, _, rfl⟩

/-! ## Claims -/

/-- Claim C10: `generateEventHash` is not injective on canonical field
tuples — the distinct tuples `("a|b", "c", 5, t)` and `("a", "b|c", 5, t)`
have equal pipe-joined hash inputs, hence equal identity hashes, and the
deduplication gate treats them identically in every state. -/
theorem c10_hash_collision :
    (⟨"a|b", "c", 5, 0⟩ : Canon) ≠ (⟨"a", "b|c", 5, 0⟩ : Canon) ∧
    hashInput ⟨"a|b", "c", 5, 0⟩ = hashInput ⟨"a", "b|c", 5, 0⟩ ∧
    generateEventHash ⟨"a|b", "c", 5, 0⟩ = generateEventHash ⟨"a", "b|c", 5, 0⟩ ∧
    ∀ st : SysState,
      isDuplicateB (generateEventHash ⟨"a|b", "c", 5, 0⟩) st =
        isDuplicateB (generateEventHash ⟨"a", "b|c", 5, 0⟩) st := by
  refine ⟨by decide, rfl, rfl, fun st => rfl⟩

/-- Claim C8: `parseDate` reads a numeric value below `10^10` as Unix
seconds — the instant constructed from `v * 1000` milliseconds — and any
other numeric value as Unix milliseconds; in particular `1704067200` and
`1704067200000` parse to the same instant. -/
theorem c8_parseDate_numeric :
    (∀ v : ℚ, v < 10000000000 → parseDate (.vnum v) = timeClip (v * 1000)) ∧
    (∀ v : ℚ, ¬v < 10000000000 → parseDate (.vnum v) = timeClip v) ∧
    parseDate (.vnum 1704067200) = .val 1704067200000 ∧
    parseDate (.vnum 1704067200000) = .val 1704067200000 := by
  refine ⟨?_, ?_, by decide, by decide⟩
  · intro v hv
    simp only [parseDate, if_pos hv, qMulNat_eq]
    norm_num
  · intro v hv
    simp only [parseDate, if_neg hv]

/-- Witness for C8 at the seconds-scale input. -/
theorem c8_witness :
    parseDate (.vnum 1704067200) = timeClip ((1704067200 : ℚ) * 1000) :=
  c8_parseDate_numeric.1 1704067200 (by norm_num)

/-- Claim C9: aggregation only considers `processed` records — with the
route's match criteria (which fix `status = 'processed'`), the result of
`aggregateEvents` over any store equals its result over the store with all
non-`processed` (in particular `rejected` and `failed`) records removed,
for every filter combination and grouping. -/
theorem c9_aggregation_only_processed (events : List EventRec)
    (cid met : Option String) (gte lte : Option Int) (groupBy : String) :
    aggregateEvents (routeCriteria cid met gte lte) groupBy events =
      aggregateEvents (routeCriteria cid met gte lte) groupBy
        (events.filter (fun e => e.status == "processed")) := by
  have hf : (events.filter (fun e => e.status == "processed")).filter
      (matchEvent (routeCriteria cid met gte lte)) =
      events.filter (matchEvent (routeCriteria cid met gte lte)) := by
    rw [List.filter_filter]
    apply List.filter_congr
    intro e _
    by_cases h : e.status == "processed"
    · simp [h]
    · simp only [matchEvent, routeCriteria, fieldCheck]
      simp [h]
  simp only [aggregateEvents, hf]

/-- Claim C3 (evaluation at the failing input): with `simulateFailure =
true` and a batch of two fresh normalizable payloads, the first item's
synthetic failure is thrown outside the `try` block, escapes
`processEvent`, and aborts `processEvents`: no per-item results are
returned, no record (not even a `failed` one) is stored, and the second
item is never attempted (exactly one pipeline call was made). -/
theorem c3_simulated_failure_aborts_batch :
    processEvents
        [jobj [("source", .vstr "a"), ("amount", .vnum 1),
           ("timestamp", .vnum 1704067200)],
         jobj [("source", .vstr "b"), ("amount", .vnum 2),
           ("timestamp", .vnum 1704067200)]]
        true (initState (fun t => 1000000 * (t : Int)) (fun _ => 0)) =
      (.error "Simulated database failure",
       { initState (fun t => 1000000 * (t : Int)) (fun _ => 0) with tick := 1 }) :=
  rfl

/-- Without the failure-simulation flag nothing in the pipeline throws:
`processEvent` always returns a result object. -/
theorem processEvent_no_throw (raw : JVal) (st : SysState) :
    ∃ (r : PResult) (st' : SysState), processEvent raw false st = (.ret r, st') := by
  unfold processEvent processEventI
  simp only [Bool.false_eq_true, if_false]
  repeat' split
  all_goals exact ⟨_, _, rfl⟩

/-- Without the failure-simulation flag, batch processing always returns
one result object per input, in order. -/
theorem processEvents_length (raws : List JVal) :
    ∀ st : SysState, ∃ l : List PResult,
      (processEvents raws false st).1 = .ok l ∧ l.length = raws.length := by
  induction raws with
  | nil =>
    intro st
    exact ⟨[], rfl, rfl⟩
  | cons r rest ih =>
    intro st
    obtain ⟨res, st', hpe⟩ := processEvent_no_throw r st
    obtain ⟨l, hl, hlen⟩ := ih st'
    refine ⟨res :: l, ?_, by simp [hlen]⟩
    simp only [processEvents, hpe]
    rcases hrec : processEvents rest false st' with ⟨o, st2⟩
    rw [hrec] at hl
    cases o with
    | ok l' =>
      simp only at hl
      cases hl
      rfl
    | error e =>
      simp only at hl
      exact absurd hl (by simp)

/-- The race-lost repair path does work when the winner is found: losing
the registration to a concurrent winner whose record and event survive
returns that winning event with `isDuplicate = true`, and the loser's
just-written event is deleted. -/
theorem race_lost_returns_winner :
    (processEventI (jobj [("source", .vstr "a"), ("amount", .vnum 1),
        ("timestamp", .vnum 1704067200)]) false raceWinnerI id
      (SysState.mk
        [⟨"ghost-id", "a", "unknown", 1, 1704067200000,
          generateEventHash ⟨"a", "unknown", 1, 1704067200000⟩, "processed",
          none, .vnull, 0, 0, 0, 0⟩]
        [] 0 0 (fun _ => 0) (fun _ => 0))).1.resultOf.map
        (fun r => (r.success, r.isDuplicate,
          r.event.map (fun e => e._id), r.error)) =
      some (true, true, some "ghost-id", none) ∧
    (processEventI (jobj [("source", .vstr "a"), ("amount", .vnum 1),
        ("timestamp", .vnum 1704067200)]) false raceWinnerI id
      (SysState.mk
        [⟨"ghost-id", "a", "unknown", 1, 1704067200000,
          generateEventHash ⟨"a", "unknown", 1, 1704067200000⟩, "processed",
          none, .vnull, 0, 0, 0, 0⟩]
        [] 0 0 (fun _ => 0) (fun _ => 0))).2.events.map (fun e => e._id) =
      ["ghost-id"] := by
  exact ⟨rfl, rfl⟩

/-- Claim C2 (evaluation at the failing input): when the identity
registration is lost to a concurrent winner (`i1` registers the hash for a
foreign event id inside the race window) and the winning record vanishes
before the repair re-lookup (`i2`), `processEvent` deletes its event and
then falls through to returning `success = true`, `isDuplicate = false`,
`error = null` carrying the just-deleted record — the store ends empty —
instead of surfacing a pipeline-level error. -/
theorem c2_race_repair_returns_success :
    (((processEventI (jobj [("source", .vstr "a"), ("amount", .vnum 1),
          ("timestamp", .vnum 1704067200)]) false raceWinnerI raceVanishI
          (initState (fun _ => 0) (fun _ => 0))).1.resultOf).map
        (fun r => (r.success, r.isDuplicate, r.event.isSome, r.error))) =
      some (true, false, true, none) ∧
    (processEventI (jobj [("source", .vstr "a"), ("amount", .vnum 1),
        ("timestamp", .vnum 1704067200)]) false raceWinnerI raceVanishI
        (initState (fun _ => 0) (fun _ => 0))).2.events = [] := by
  exact ⟨rfl, rfl⟩

/-- Claim C5 (counterexample): two distinct payloads that both fail
normalization, ingested under coinciding `Date.now()` / `Math.random()`
draws, store two rejected records with the *same* synthetic identity hash. -/
theorem c5_counterexample :
    let st := initState (fun _ => 0) (fun _ => 0)
    let p1 : JVal := jobj []
    let p2 : JVal := jobj [("x", .vnum 1)]
    p1 ≠ p2 ∧
    ((processEvents [p1, p2] false st).2.events.map
        (fun e => (e.status, e.eventHash))) =
      [("rejected", "rejected_0_0"), ("rejected", "rejected_0_0")] := by
  constructor
  · intro h
    simp only [jobj, JFields.ofList] at h
    injection h with h2
    exact JFields.noConfusion h2
  · rfl

/-- The character-list decomposition of a rejected hash. -/
theorem rejectedHash_data (n : Int) (r : Nat) :
    (rejectedHash n r).data =
      "rejected_".data ++ ((Int.repr n).data ++ ('_' :: (Nat.repr r).data)) := by
  simp [rejectedHash, String.data_append, List.append_assoc]

/-- Claim C5 (amended): the synthetic hashes of two rejection attempts
differ whenever their `(Date.now(), Math.random())` draws differ in their
decimal renderings (the code guarantees no more than that — equal draws
collide, as the counterexample shows); and a synthetic rejected hash never
equals the identity hash of any canonical field tuple, since a SHA-256 hex
digest cannot begin with the letter `r`. -/
theorem c5_rejected_hash_uniqueness :
    (∀ (n₁ n₂ : Int) (r₁ r₂ : Nat),
      Int.repr n₁ ≠ Int.repr n₂ ∨ Nat.repr r₁ ≠ Nat.repr r₂ →
      rejectedHash n₁ r₁ ≠ rejectedHash n₂ r₂) ∧
    (∀ (n : Int) (r : Nat) (c : Canon), rejectedHash n r ≠ generateEventHash c) := by
  constructor
  · intro n₁ n₂ r₁ r₂ hneq heq
    have hdata := congrArg String.data heq
    rw [rejectedHash_data, rejectedHash_data] at hdata
    have hcanc := List.append_cancel_left hdata
    have hsplit := split_at_marker (intRepr_no_underscore n₁)
      (intRepr_no_underscore n₂) hcanc
    rcases hneq with hn | hr
    · exact hn (by
        have : (Int.repr n₁).data = (Int.repr n₂).data := hsplit.1
        cases hi₁ : Int.repr n₁ with
        | mk d₁ =>
          cases hi₂ : Int.repr n₂ with
          | mk d₂ =>
            rw [hi₁, hi₂] at this
            simp only at this
            rw [this])
    · exact hr (by
        have : (Nat.repr r₁).data = (Nat.repr r₂).data := hsplit.2
        cases hi₁ : Nat.repr r₁ with
        | mk d₁ =>
          cases hi₂ : Nat.repr r₂ with
          | mk d₂ =>
            rw [hi₁, hi₂] at this
            simp only at this
            rw [this])
  · intro n r c heq
    obtain ⟨k, rest, hsha⟩ := sha256hex_head (hashInput c)
    have hdata := congrArg String.data heq
    rw [rejectedHash_data] at hdata
    have hr : "rejected_".data = 'r' :: "ejected_".data := rfl
    rw [hr, List.cons_append] at hdata
    have hgen : (generateEventHash c).data = Nat.digitChar k :: rest := hsha
    rw [hgen] at hdata
    have hhead : 'r' = Nat.digitChar k := by
      injection hdata with h1 _
    exact digitChar_ne_r k hhead.symm

/-- Witness for the amended C5: distinct random draws in the same
millisecond give distinct rejected hashes, and a rejected hash differs
from the identity hash of a concrete canonical tuple. -/
theorem c5_witness :
    rejectedHash 0 0 ≠ rejectedHash 0 1 ∧
    rejectedHash 0 0 ≠ generateEventHash ⟨"a", "b", 1, 0⟩ :=
  ⟨c5_rejected_hash_uniqueness.1 0 0 0 1 (Or.inr (by decide)),
   c5_rejected_hash_uniqueness.2 0 0 ⟨"a", "b", 1, 0⟩⟩

/-- Claim C4: for a payload whose identity hash is already registered,
`processEvent` with `simulateFailure = true` returns the referenced event
with `isDuplicate = true` and leaves the stores untouched — the synthetic
failure is raised only after the duplicate check, so already-processed
events stay idempotent under simulated outages. -/
theorem c4_duplicate_immune_to_simulated_failure
    (st : SysState) (raw : JVal) (nf : NormalizedData) (rec : DedupRec)
    (hnorm : normalize raw (nowOf st) = .ok nf)
    (hfind : findDedupRecord nf.eventHash st = some rec) :
    processEvent raw true st =
      (.ret ⟨true, findEventById rec.eventId st, true, none⟩, bump st) := by
  have hfind' : (bump st).dedups.find? (fun r => r.eventHash == nf.eventHash) =
      some rec := hfind
  simp only [processEvent, processEventI, hnorm, isDuplicateB, findDedupRecord,
    getExistingEventId, hfind', Option.isSome_some, Option.map_some']
  rfl

/-- Witness for C4: a concrete registered payload under a simulated
outage. -/
theorem c4_witness :
    let nfw : NormalizedData :=
      ⟨⟨"a", "unknown", 1, 1704067200000⟩,
       generateEventHash ⟨"a", "unknown", 1, 1704067200000⟩⟩
    let ev : EventRec :=
      ⟨"uuid-0", "a", "unknown", 1, 1704067200000, nfw.eventHash, "processed",
       none, jobj [("source", .vstr "a"), ("amount", .vnum 1),
         ("timestamp", .vnum 1704067200)], 0, 0, 0, 0⟩
    let drec : DedupRec := ⟨nfw.eventHash, "a", "uuid-0", 0, 0, 0⟩
    let st : SysState := ⟨[ev], [drec], 1, 0, fun _ => 0, fun _ => 0⟩
    processEvent (jobj [("source", .vstr "a"), ("amount", .vnum 1),
        ("timestamp", .vnum 1704067200)]) true st =
      (.ret ⟨true, findEventById drec.eventId st, true, none⟩, bump st) := by
  intro nfw ev drec st
  exact c4_duplicate_immune_to_simulated_failure st _ nfw drec rfl rfl

/-- Every error `extractAmount` ever throws is the amount error. -/
theorem extractAmountF_error : ∀ (fuel : Nat) (p : JVal) (e : String),
    extractAmountF fuel p = .error e → e = amountErr := by
  intro fuel
  induction fuel with
  | zero =>
    intro p e h
    simp only [extractAmountF] at h
    cases h
    rfl
  | succ k ih =>
    intro p e h
    simp only [extractAmountF] at h
    split at h
    · exact absurd h (by simp)
    · split at h
      · split at h
        · exact ih _ _ h
        · injection h with h2
          exact h2.symm
      · injection h with h2
        exact h2.symm

/-- If no amount field (at any nesting level) yields a valid number, the
extraction throws the amount error. -/
theorem noAmountF_error : ∀ (fuel : Nat) (p : JVal), jsize p ≤ fuel →
    noAmountF fuel p = true → extractAmountF fuel p = .error amountErr := by
  intro fuel
  induction fuel with
  | zero =>
    intro p hsz _
    have := jsize_pos p
    omega
  | succ k ih =>
    intro p hsz hno
    simp only [noAmountF] at hno
    rw [Bool.and_eq_true] at hno
    obtain ⟨hfa, hnest⟩ := hno
    rw [Option.isNone_iff_eq_none] at hfa
    simp only [extractAmountF, hfa]
    split
    · rename_i q hg
      simp only [hg] at hnest
      split
      · rename_i ht
        rw [if_pos ht] at hnest
        have hq : jsize q ≤ k := by
          have := getField_jsize hg
          omega
        exact ih q hq hnest
      · rfl
    · rfl

/-- Claim C7: amount extraction scans `amount, value, count, quantity,
total, price` in order — numbers pass through, strings are stripped to
`[0-9.-]` and parsed, the first field yielding a valid number wins
(`"1200"` gives `1200`, `"$1,200.50"` gives `1200.5`), and if no field
yields a valid number the extraction fails with the amount error. -/
theorem c7_amount_extraction :
    (∀ q : ℚ, coerceAmount (.vnum q) = some q) ∧
    (∀ s : String, coerceAmount (.vstr s) = parseFloatChars (stripAmount s)) ∧
    (∀ (p : JVal) (q : ℚ), firstAmount p = some q → extractAmount p = .ok q) ∧
    extractAmount (jobj [("amount", .vstr "1200")]) = .ok 1200 ∧
    extractAmount (jobj [("amount", .vstr "$1,200.50")]) = .ok (1200.5 : ℚ) ∧
    (∀ p : JVal, noAmount p = true → extractAmount p = .error amountErr) := by
  refine ⟨fun q => rfl, fun s => rfl, ?_, by decide, ?_, ?_⟩
  · intro p q hfa
    unfold extractAmount
    cases hs : jsize p with
    | zero =>
      have := jsize_pos p
      omega
    | succ k =>
      simp only [extractAmountF, hfa]
  · have hb : (1200.5 : ℚ) = mkRat 2401 2 := by
      rw [Rat.mkRat_eq_div]
      norm_num
    rw [hb]
    decide
  · intro p hno
    exact noAmountF_error (jsize p) p (Nat.le_refl _) hno

/-- Witness for C7: the scan order skips a non-coercible `amount` field in
favour of `value`, and a payload with no numeric field throws. -/
theorem c7_witness :
    extractAmount (jobj [("amount", .vbool true), ("value", .vstr "7")]) = .ok 7 ∧
    extractAmount (jobj [("foo", .vnum 3)]) = .error amountErr :=
  ⟨c7_amount_extraction.2.2.1 _ 7 rfl,
   c7_amount_extraction.2.2.2.2.2 _ (by decide)⟩

/-- Claim C6 (counterexample): a payload whose `source` field is the empty
string passes the presence check, so normalization succeeds with an
*empty* clientId — refuting both that success implies a non-empty clientId
and that failure occurs exactly on absence of the field. -/
theorem c6_counterexample :
    ∃ nf : NormalizedData,
      normalize (jobj [("source", .vstr ""), ("amount", .vnum 1)]) 0 = .ok nf ∧
      nf.clientId = "" := by
  exact ⟨⟨⟨"", "unknown", 1, 0⟩, generateEventHash ⟨"", "unknown", 1, 0⟩⟩, rfl, rfl⟩

/-- If no clientId field is present anywhere (top level, or recursively in
a truthy nested payload object with a truthy value), the extraction throws
the clientId error. -/
theorem noClientFieldF_error : ∀ (fuel : Nat) (p : JVal), jsize p ≤ fuel →
    noClientFieldF fuel p = true → extractClientIdF fuel p = .error clientIdErr := by
  intro fuel
  induction fuel with
  | zero =>
    intro p hsz _
    have := jsize_pos p
    omega
  | succ k ih =>
    intro p hsz hno
    simp only [noClientFieldF] at hno
    rw [Bool.and_eq_true] at hno
    obtain ⟨hfp, hnest⟩ := hno
    rw [Option.isNone_iff_eq_none] at hfp
    simp only [extractClientIdF, hfp]
    split
    · rename_i q hg
      simp only [hg] at hnest
      split
      · rename_i ht
        rw [if_pos ht] at hnest
        have hq : jsize q ≤ k := by
          have := getField_jsize hg
          omega
        rw [ih q hq hnest]
      · rfl
    · rfl

/-- Every successful clientId extraction is the trimmed string coercion of
some field value. -/
theorem extractClientIdF_ok_trim : ∀ (fuel : Nat) (p : JVal) (r : String),
    extractClientIdF fuel p = .ok r → ∃ v : JVal, r = jsTrim (jsToString v) := by
  intro fuel
  induction fuel with
  | zero =>
    intro p r h
    simp only [extractClientIdF] at h
    exact absurd h (by simp)
  | succ k ih =>
    intro p r h
    simp only [extractClientIdF] at h
    split at h
    · rename_i v hfp
      injection h with h2
      exact ⟨v, h2.symm⟩
    · split at h
      · split at h
        · split at h
          · rename_i s hrec
            split at h
            · exact absurd h (by simp)
            · injection h with h2
              exact h2 ▸ ih _ _ hrec
          · exact absurd h (by simp)
        · exact absurd h (by simp)
      · exact absurd h (by simp)

/-- Every error `extractAmount` ever throws is the amount error, at the
wrapper level. -/
theorem extractAmount_error {p : JVal} {e : String}
    (h : extractAmount p = .error e) : e = amountErr :=
  extractAmountF_error (jsize p) p e h

/-- Claim C6 (amended): normalization fails with the clientId error *iff*
`extractClientId` throws it; a present (non-null) clientId field — even an
empty or whitespace string — always yields success with the trimmed
coercion of its value; absence of any clientId field everywhere yields the
clientId error; and every successful clientId is a trimmed string
(possibly empty). -/
theorem c6_clientId_extraction :
    (∀ (p v : JVal), firstPresent p clientIdFields = some v →
      extractClientId p = .ok (jsTrim (jsToString v))) ∧
    (∀ p : JVal, noClientField p = true →
      extractClientId p = .error clientIdErr) ∧
    (∀ (p : JVal) (r : String), extractClientId p = .ok r →
      ∃ v : JVal, r = jsTrim (jsToString v)) ∧
    (∀ (raw : JVal) (t : Int),
      normalize raw t = .error clientIdErr ↔
        extractClientId raw = .error clientIdErr) := by
  refine ⟨?_, ?_, ?_, ?_⟩
  · intro p v hfp
    unfold extractClientId
    cases hs : jsize p with
    | zero =>
      have := jsize_pos p
      omega
    | succ k =>
      simp only [extractClientIdF, hfp]
  · intro p hno
    exact noClientFieldF_error (jsize p) p (Nat.le_refl _) hno
  · intro p r h
    exact extractClientIdF_ok_trim (jsize p) p r h
  · intro raw t
    constructor
    · intro h
      cases hc : extractClientId raw with
      | error e =>
        simp only [normalize, hc] at h
        injection h with h2
        rw [h2]
      | ok cid =>
        simp only [normalize, hc] at h
        split at h
        · rename_i e ha
          injection h with h2
          have he : e = amountErr := extractAmount_error ha
          rw [he] at h2
          exact absurd h2 (by decide)
        · exact absurd h (by simp)
    · intro h
      simp [normalize, h]

/-- Witness for the amended C6: a present `client` field with surrounding
whitespace succeeds trimmed; a payload with no clientId field anywhere
throws the clientId error. -/
theorem c6_witness :
    extractClientId (jobj [("client", .vstr " x ")]) =
      .ok (jsTrim (jsToString (.vstr " x "))) ∧
    extractClientId (jobj [("foo", .vnum 1)]) = .error clientIdErr :=
  ⟨c6_clientId_extraction.1 _ _ rfl, c6_clientId_extraction.2.1 _ (by decide)⟩

/-- First submission of a normalizable payload into empty stores: one
processed record is written, its identity registered, and the call returns
it with `isDuplicate = false`. -/
theorem processEvent_first (raw : JVal) (nf : NormalizedData) (st : SysState)
    (hnorm : normalize raw (nowOf st) = .ok nf)
    (hev : st.events = []) (hded : st.dedups = []) :
    processEvent raw false st =
      (.ret ⟨true, some (newEventOf nf raw st), false, none⟩,
       { st with events := [newEventOf nf raw st],
                 dedups := [newDedupOf nf st],
                 nextId := st.nextId + 1, tick := st.tick + 1 }) := by
  have hnorm' : normalize raw (st.timeline st.tick) = .ok nf := hnorm
  simp only [processEvent, processEventI, hnorm', isDuplicateB, findDedupRecord,
    getExistingEventId, recordProcessedEvent, upsertDedupRecord, upsertDedupList,
    createEvent, bump, hded, hev, List.find?_nil, Option.isSome_none, Option.map_none',
    Bool.false_eq_true, if_false, if_true, List.nil_append, newEventOf, newDedupOf,
    mkProcessedEvent, nowOf, id]

/-- A submission whose hash is already registered returns the stored event
with `isDuplicate = true` and leaves the stores untouched. -/
theorem processEvent_dup (raw : JVal) (nf : NormalizedData) (st : SysState)
    (e : EventRec) (d : DedupRec)
    (hnorm : normalize raw (nowOf st) = .ok nf)
    (hev : st.events = [e]) (hded : st.dedups = [d])
    (hh : d.eventHash = nf.eventHash) (hid : d.eventId = e._id) :
    processEvent raw false st = (.ret ⟨true, some e, true, none⟩, bump st) := by
  have hnorm' : normalize raw (st.timeline st.tick) = .ok nf := hnorm
  simp only [processEvent, processEventI, hnorm', isDuplicateB, findDedupRecord,
    getExistingEventId, findEventById, bump, hded, hev, hh, hid, List.find?_cons,
    beq_self_eq_true, Option.isSome_some, Option.map_some', nowOf, if_true, id]

/-- Every further submission after the first is a no-op returning the
stored event as a duplicate. -/
theorem submitSame_dups (raw : JVal) (nf : NormalizedData) (e : EventRec)
    (d : DedupRec) (hnorm : ∀ t : Int, normalize raw t = .ok nf)
    (hh : d.eventHash = nf.eventHash) (hid : d.eventId = e._id) :
    ∀ (k : Nat) (st : SysState), st.events = [e] → st.dedups = [d] →
      (submitSame raw k st).1 =
        List.replicate k (.ret ⟨true, some e, true, none⟩) ∧
      (submitSame raw k st).2.events = [e] := by
  intro k
  induction k with
  | zero =>
    intro st hev hded
    exact ⟨rfl, hev⟩
  | succ m ih =>
    intro st hev hded
    have hstep := processEvent_dup raw nf st e d (hnorm _) hev hded hh hid
    obtain ⟨h1, h2⟩ := ih (bump st) hev hded
    constructor
    · show (submitSame raw (m + 1) st).1 = _
      simp only [submitSame, hstep, h1, List.replicate_succ]
    · show (submitSame raw (m + 1) st).2.events = [e]
      simp only [submitSame, hstep, h2]

/-- Claim C1 (amended): for a payload whose normalization is
clock-independent (it succeeds with the same canonical fields at every
submission time — e.g. one carrying a parseable timestamp field),
submitting it `n ≥ 1` times into empty stores yields exactly one stored
record, a `processed` one carrying the payload's identity hash; the first
submission returns it with `isDuplicate = false` and every later
submission returns the *same* record (same id) with `isDuplicate = true`,
writing nothing. -/
theorem c1_idempotent_resubmission (raw : JVal) (nf : NormalizedData)
    (st : SysState) (n : Nat)
    (hnorm : ∀ t : Int, normalize raw t = .ok nf)
    (hev : st.events = []) (hded : st.dedups = []) (hn : 1 ≤ n) :
    ∃ e : EventRec, e.status = "processed" ∧ e.eventHash = nf.eventHash ∧
      (submitSame raw n st).2.events = [e] ∧
      (submitSame raw n st).1 =
        .ret ⟨true, some e, false, none⟩ ::
          List.replicate (n - 1) (.ret ⟨true, some e, true, none⟩) := by
  obtain ⟨m, rfl⟩ : ∃ m, n = m + 1 := ⟨n - 1, by omega⟩
  have hfirst := processEvent_first raw nf st (hnorm _) hev hded
  have hrest := submitSame_dups raw nf (newEventOf nf raw st) (newDedupOf nf st)
    hnorm rfl rfl m
    (SysState.mk [newEventOf nf raw st] [newDedupOf nf st]
      (st.nextId + 1) (st.tick + 1) st.timeline st.rands) rfl rfl
  refine ⟨newEventOf nf raw st, rfl, rfl, ?_, ?_⟩
  · show (submitSame raw (m + 1) st).2.events = _
    simp only [submitSame, hfirst, hrest.2]
  · show (submitSame raw (m + 1) st).1 = _
    simp only [submitSame, hfirst, hrest.1, Nat.add_sub_cancel]

/-- Claim C1 (counterexample): a payload with *no* timestamp field
normalizes with the clock as its timestamp, so resubmitting it after the
clock has advanced produces a fresh hash: both submissions return
`isDuplicate = false` and *two* processed records end up stored. -/
theorem c1_counterexample :
    let st := initState (fun t => 1000000 * (t : Int)) (fun _ => 0)
    let raw : JVal := jobj [("source", .vstr "a"), ("amount", .vnum 1)]
    ((submitSame raw 2 st).1.map (fun o => o.resultOf.map
        (fun r => (r.success, r.isDuplicate)))) =
      [some (true, false), some (true, false)] ∧
    ((submitSame raw 2 st).2.events.map (fun e => e.status)) =
      ["processed", "processed"] := by
  exact ⟨rfl, rfl⟩

/-- Witness for the amended C1: a concrete payload with an explicit
numeric timestamp, submitted twice from empty stores. -/
theorem c1_witness :
    ∃ e : EventRec, e.status = "processed" ∧
      e.eventHash = (⟨⟨"a", "unknown", 1, 1704067200000⟩,
        generateEventHash ⟨"a", "unknown", 1, 1704067200000⟩⟩ :
          NormalizedData).eventHash ∧
      (submitSame (jobj [("source", .vstr "a"), ("amount", .vnum 1),
          ("timestamp", .vnum 1704067200)]) 2
        (initState (fun _ => 0) (fun _ => 0))).2.events = [e] ∧
      (submitSame (jobj [("source", .vstr "a"), ("amount", .vnum 1),
          ("timestamp", .vnum 1704067200)]) 2
        (initState (fun _ => 0) (fun _ => 0))).1 =
        .ret ⟨true, some e, false, none⟩ ::
          List.replicate (2 - 1) (.ret ⟨true, some e, true, none⟩) :=
  c1_idempotent_resubmission _ _ _ 2 (fun _ => rfl) rfl rfl (by omega)

end EventIngestion
